import Mathlib

/-!
Shallow embedding of the Sale Event Analytics Engine of the
steam-growth-decision-pack repository (src/sales.py, src/metrics.py,
scripts/build_tail_validation.py), together with theorems checking the
natural-language specification against it.

Conventions of the embedding:
* a daily panel row is (date, engagement, discount); dates are integers
  (day numbers), engagement and discount are rationals, with missing
  values (NaN / null) modelled as Option.none;
* pandas sort_values is modelled by an insertion sort on the date key;
* pandas median / rolling median / quantile are implemented over the
  rationals exactly as pandas computes them (linear interpolation,
  NaN-skipping aggregation);
* the engine is per product: detect_sales groups the panel by app_id and
  processes each product independently, so the embedding models the
  per-product computation.
-/

namespace SteamGrowth

/-- One daily panel row for a single product: calendar date (as an integer
day number), engagement metric value (None when missing), discount
percentage (None when missing). -/
structure PanelRow where
  date : Int
  engagement : Option ℚ
  discount : Option ℚ
deriving Repr, DecidableEq, Inhabited

/-- Insertion step of the sort on the date key (models sort_values("date")). -/
def insertByDate (r : PanelRow) : List PanelRow → List PanelRow
  | [] => [r]
  | x :: xs => if r.date ≤ x.date then r :: x :: xs else x :: insertByDate r xs

/-- Sort a panel by date (models app_df.sort_values("date")). -/
def sortByDate (l : List PanelRow) : List PanelRow := l.foldr insertByDate []

/-- Discount-day test: is_sale_day = discount_pct.fillna(0) > 0. -/
def isSaleDay (r : PanelRow) : Bool := 0 < r.discount.getD 0

/-- The date-ordered list of discount days of a product
(app_df[app_df["is_sale_day"]]["date"], after sorting by date). -/
def saleDays (panel : List PanelRow) : List Int :=
  ((sortByDate panel).filter (fun r => isSaleDay r)).map (fun r => r.date)

/-- One detected discount episode: start date and end date. -/
structure Episode where
  start_date : Int
  end_date : Int
deriving Repr, DecidableEq, Inhabited

/-- Tail of episode grouping: current episode started at s and its last seen
discount day is c; a gap of more than one day starts a new episode
(models the cumsum of date_diff.isna() or date_diff > 1 in
_build_sale_episodes, with per-episode start = min date, end = max date). -/
def buildEpisodesAux (s c : Int) : List Int → List Episode
  | [] => [⟨s, c⟩]
  | d :: ds =>
      if 1 < d - c then ⟨s, c⟩ :: buildEpisodesAux d d ds
      else buildEpisodesAux s d ds

/-- Group a date-ordered list of discount days into maximal contiguous
episodes (models _build_sale_episodes). -/
def buildEpisodes : List Int → List Episode
  | [] => []
  | d :: ds => buildEpisodesAux d d ds

/-- Episode duration in days, as recorded by detect_sales:
(sale_end_date - sale_start_date).days + 1. -/
def durationDays (e : Episode) : Int := e.end_date - e.start_date + 1

/-- Build a one-product panel from a list of daily discount percentages,
day i carrying discount ds[i] and a constant observed engagement of 100
(mirrors the _make_panel helper of the repository's detection tests). -/
def mkPanel (ds : List ℚ) : List PanelRow :=
  ds.enum.map (fun p => ⟨(p.1 : Int), some 100, some p.2⟩)

/-! Sortedness facts about the insertion sort used for the panel. -/

theorem mem_insertByDate {x r : PanelRow} {l : List PanelRow} :
    x ∈ insertByDate r l ↔ x = r ∨ x ∈ l := by
  induction l with
  | nil => simp [insertByDate]
  | cons a as ih =>
      by_cases h : r.date ≤ a.date
      · simp [insertByDate, h]
      · simp [insertByDate, h, ih]
        tauto

theorem sorted_insertByDate (r : PanelRow) {l : List PanelRow}
    (h : l.Sorted (fun a b => a.date ≤ b.date)) :
    (insertByDate r l).Sorted (fun a b => a.date ≤ b.date) := by
  induction l with
  | nil => simp [insertByDate]
  | cons a as ih =>
      rcases List.sorted_cons.mp h with ⟨ha, has⟩
      by_cases hr : r.date ≤ a.date
      · simp only [insertByDate, if_pos hr]
        refine List.sorted_cons.mpr ⟨?_, h⟩
        intro b hb
        rcases List.mem_cons.mp hb with hb | hb
        · exact hb ▸ hr
        · exact le_trans hr (ha b hb)
      · simp only [insertByDate, if_neg hr]
        refine List.sorted_cons.mpr ⟨?_, ih has⟩
        intro b hb
        rcases mem_insertByDate.mp hb with hb | hb
        · exact hb ▸ le_of_not_le hr
        · exact ha b hb

theorem sorted_sortByDate (l : List PanelRow) :
    (sortByDate l).Sorted (fun a b => a.date ≤ b.date) := by
  induction l with
  | nil => simp [sortByDate]
  | cons a as ih => exact sorted_insertByDate a ih

theorem sorted_saleDays (panel : List PanelRow) :
    (saleDays panel).Sorted (· ≤ ·) := by
  have h := (sorted_sortByDate panel).filter (fun r => isSaleDay r)
  unfold saleDays
  exact List.pairwise_map.mpr h

/-! Structural invariants of episode grouping. -/

theorem buildEpisodesAux_start_le {ds : List Int} :
    ∀ {s c : Int}, s ≤ c → (s :: c :: ds).Sorted (· ≤ ·) →
      ∀ e ∈ buildEpisodesAux s c ds, s ≤ e.start_date := by
  induction ds with
  | nil =>
      intro s c hsc _ e he
      simp only [buildEpisodesAux, List.mem_singleton] at he
      simp [he]
  | cons d ds ih =>
      intro s c hsc hsorted e he
      have hcd : c ≤ d := by
        have := List.sorted_cons.mp (List.sorted_cons.mp hsorted).2
        exact this.1 d (by simp)
      have htail : (d :: d :: ds).Sorted (· ≤ ·) := by
        have h1 : (c :: d :: ds).Sorted (· ≤ ·) :=
          (List.sorted_cons.mp hsorted).2
        rcases List.sorted_cons.mp h1 with ⟨_, h2⟩
        refine List.sorted_cons.mpr ⟨?_, h2⟩
        intro b hb
        rcases List.sorted_cons.mp h2 with ⟨hd, _⟩
        rcases List.mem_cons.mp hb with hb | hb
        · exact hb ▸ le_rfl
        · exact hd b hb
      have htail2 : (s :: d :: ds).Sorted (· ≤ ·) := by
        have h1 : (c :: d :: ds).Sorted (· ≤ ·) :=
          (List.sorted_cons.mp hsorted).2
        rcases List.sorted_cons.mp h1 with ⟨hd, h2⟩
        refine List.sorted_cons.mpr ⟨?_, h2⟩
        intro b hb
        rcases List.mem_cons.mp hb with hb | hb
        · exact hb ▸ le_trans hsc hcd
        · exact le_trans (le_trans hsc hcd)
            ((List.sorted_cons.mp h2).1 b hb)
      simp only [buildEpisodesAux] at he
      by_cases hgap : 1 < d - c
      · rw [if_pos hgap] at he
        rcases List.mem_cons.mp he with he | he
        · simp [he]
        · exact le_trans (le_trans hsc hcd) (ih le_rfl htail e he)
      · rw [if_neg hgap] at he
        exact ih (le_trans hsc hcd) htail2 e he

theorem buildEpisodesAux_wf {ds : List Int} :
    ∀ {s c : Int}, s ≤ c → (s :: c :: ds).Sorted (· ≤ ·) →
      (∀ e ∈ buildEpisodesAux s c ds, e.start_date ≤ e.end_date) ∧
      (buildEpisodesAux s c ds).Pairwise
        (fun a b => a.end_date < b.start_date) := by
  induction ds with
  | nil =>
      intro s c hsc _
      constructor
      · intro e he
        simp only [buildEpisodesAux, List.mem_singleton] at he
        simp [he, hsc]
      · simp [buildEpisodesAux]
  | cons d ds ih =>
      intro s c hsc hsorted
      have hcd : c ≤ d := by
        have := List.sorted_cons.mp (List.sorted_cons.mp hsorted).2
        exact this.1 d (by simp)
      have htail : (d :: d :: ds).Sorted (· ≤ ·) := by
        have h1 : (c :: d :: ds).Sorted (· ≤ ·) :=
          (List.sorted_cons.mp hsorted).2
        rcases List.sorted_cons.mp h1 with ⟨_, h2⟩
        refine List.sorted_cons.mpr ⟨?_, h2⟩
        intro b hb
        rcases List.sorted_cons.mp h2 with ⟨hd, _⟩
        rcases List.mem_cons.mp hb with hb | hb
        · exact hb ▸ le_rfl
        · exact hd b hb
      have htail2 : (s :: d :: ds).Sorted (· ≤ ·) := by
        have h1 : (c :: d :: ds).Sorted (· ≤ ·) :=
          (List.sorted_cons.mp hsorted).2
        rcases List.sorted_cons.mp h1 with ⟨hd, h2⟩
        refine List.sorted_cons.mpr ⟨?_, h2⟩
        intro b hb
        rcases List.mem_cons.mp hb with hb | hb
        · exact hb ▸ le_trans hsc hcd
        · exact le_trans (le_trans hsc hcd)
            ((List.sorted_cons.mp h2).1 b hb)
      by_cases hgap : 1 < d - c
      · have hrest := ih (s := d) (c := d) le_rfl htail
        constructor
        · intro e he
          simp only [buildEpisodesAux, if_pos hgap] at he
          rcases List.mem_cons.mp he with he | he
          · simp [he, hsc]
          · exact hrest.1 e he
        · simp only [buildEpisodesAux, if_pos hgap]
          refine List.pairwise_cons.mpr ⟨?_, hrest.2⟩
          intro e he
          have hd : d ≤ e.start_date :=
            buildEpisodesAux_start_le le_rfl htail e he
          have : c + 1 < d := by omega
          simpa using lt_of_lt_of_le (by omega : c < d) hd
      · have hrest := ih (s := s) (c := d) (le_trans hsc hcd) htail2
        constructor
        · intro e he
          simp only [buildEpisodesAux, if_neg hgap] at he
          exact hrest.1 e he
        · simp only [buildEpisodesAux, if_neg hgap]
          exact hrest.2

theorem buildEpisodes_wf {ds : List Int} (h : ds.Sorted (· ≤ ·)) :
    (∀ e ∈ buildEpisodes ds, e.start_date ≤ e.end_date) ∧
    (buildEpisodes ds).Pairwise (fun a b => a.end_date < b.start_date) := by
  cases ds with
  | nil => simp [buildEpisodes]
  | cons d ds =>
      have hsorted : (d :: d :: ds).Sorted (· ≤ ·) := by
        rcases List.sorted_cons.mp h with ⟨hd, h2⟩
        exact List.sorted_cons.mpr ⟨fun b hb => by
          rcases List.mem_cons.mp hb with hb | hb
          · exact hb ▸ le_rfl
          · exact hd b hb, h⟩
      exact buildEpisodesAux_wf le_rfl hsorted

/-! Median and the baseline calculator. -/

/-- Insertion step of the sort on rational values. -/
def insertQ (x : ℚ) : List ℚ → List ℚ
  | [] => [x]
  | y :: ys => if x ≤ y then x :: y :: ys else y :: insertQ x ys

/-- Ascending sort of rational values. -/
def sortQ (l : List ℚ) : List ℚ := l.foldr insertQ []

/-- Median of a list of rationals, as pandas computes it on non-null values:
the middle element of the sorted list for odd length, the mean of the two
middle elements for even length. The empty list yields the junk value 0
(pandas yields NaN there); every use below is guarded by nonemptiness. -/
def medianQ (l : List ℚ) : ℚ :=
  let s := sortQ l
  let n := s.length
  if n = 0 then 0
  else if n % 2 = 1 then s.getD (n / 2) 0
  else (s.getD (n / 2 - 1) 0 + s.getD (n / 2) 0) / 2

/-- Panel rows inside the pre-episode baseline window
[start - preDays, start - excludeDays] (detect_sales baseline_slice). -/
def baselineSlice (panel : List PanelRow) (start preDays excludeDays : Int) :
    List PanelRow :=
  (sortByDate panel).filter
    (fun r => start - preDays ≤ r.date ∧ r.date ≤ start - excludeDays)

/-- The non-null engagement observations inside an episode's baseline
window (the values whose count is baseline_days in detect_sales). -/
def baselineValues (panel : List PanelRow) (preDays excludeDays : Int)
    (e : Episode) : List ℚ :=
  (baselineSlice panel e.start_date preDays excludeDays).filterMap
    (fun r => r.engagement)

/-- baseline_days of detect_sales: the number of non-null observations in
the baseline window. -/
def baselineSampleDays (panel : List PanelRow) (preDays excludeDays : Int)
    (e : Episode) : ℕ :=
  (baselineValues panel preDays excludeDays e).length

/-- Maximal discount over the episode's discount days (sale_depth_max). -/
def episodeDepthMax (panel : List PanelRow) (e : Episode) : ℚ :=
  (((sortByDate panel).filter
      (fun r => isSaleDay r ∧ e.start_date ≤ r.date ∧ r.date ≤ e.end_date)).filterMap
    (fun r => r.discount)).foldl max 0

/-- One retained sale record of detect_sales for a single product (the
app_id and the derived sale_id string are constant per product and left
out; sale_depth_mode and the mechanism tags are untouched by the claims). -/
structure SaleRecord where
  sale_start_date : Int
  sale_end_date : Int
  sale_duration_days : Int
  sale_depth_max : ℚ
  baseline_players : ℚ
  days_since_last_sale : Option Int
  sales_count_last_90d : ℕ
  sale_days_last_90d : ℕ
  sale_share_last_90d : ℚ
deriving Repr, DecidableEq, Inhabited

/-- Hard-coded retention threshold of detect_sales: an episode is kept only
when baseline_days is at least 7. -/
def minBaselineDays : ℕ := 7

/-- The record appended by detect_sales for a retained episode, before the
recency/cadence pass fills the trailing fields. -/
def mkSaleRecord (panel : List PanelRow) (preDays excludeDays : Int)
    (e : Episode) : SaleRecord :=
  { sale_start_date := e.start_date
    sale_end_date := e.end_date
    sale_duration_days := durationDays e
    sale_depth_max := episodeDepthMax panel e
    baseline_players := medianQ (baselineValues panel preDays excludeDays e)
    days_since_last_sale := none
    sales_count_last_90d := 0
    sale_days_last_90d := 0
    sale_share_last_90d := 0 }

/-- The days_since_last_sale pass of detect_sales: for each retained record
in start-date order, the gap from the previous retained record's end date
to this record's start date; None for the first record. -/
def addDaysSinceLastSale : Option Int → List SaleRecord → List SaleRecord
  | _, [] => []
  | prevEnd, r :: rs =>
      { r with days_since_last_sale := prevEnd.map (fun pe => r.sale_start_date - pe) } ::
        addDaysSinceLastSale (some r.sale_end_date) rs

/-- Number of episodes overlapping the trailing cadence window (the
episodes here are ALL detected episodes of the product, cached before the
baseline exclusion). -/
def episodesOverlappingWindow (eps : List Episode) (wStart wEnd : Int) : ℕ :=
  (eps.filter (fun e => e.start_date ≤ wEnd ∧ wStart ≤ e.end_date)).length

/-- The cadence pass of detect_sales for one record, using the per-product
cache of all episodes and all discount days. -/
def addCadence (allEps : List Episode) (allSaleDays : List Int)
    (lookback : Int) (r : SaleRecord) : SaleRecord :=
  let wStart := r.sale_start_date - lookback
  let wEnd := r.sale_start_date - 1
  let saleDaysCount := (allSaleDays.filter (fun d => wStart ≤ d ∧ d ≤ wEnd)).length
  { r with
    sales_count_last_90d := episodesOverlappingWindow allEps wStart wEnd
    sale_days_last_90d := saleDaysCount
    sale_share_last_90d := (saleDaysCount : ℚ) / (lookback : ℚ) }

/-- detect_sales for one product: detect episodes, compute baselines,
exclude (and count) episodes with fewer than 7 baseline observations,
then fill recency and cadence fields. Returns the retained records in
start-date order together with the exclusion count. -/
def detectSales (panel : List PanelRow) (preDays excludeDays lookback : Int) :
    List SaleRecord × ℕ :=
  let eps := buildEpisodes (saleDays panel)
  let retained := eps.filter
    (fun e => minBaselineDays ≤ baselineSampleDays panel preDays excludeDays e)
  let excluded := (eps.filter
    (fun e => baselineSampleDays panel preDays excludeDays e < minBaselineDays)).length
  let recs := retained.map (mkSaleRecord panel preDays excludeDays)
  let recs := addDaysSinceLastSale none recs
  let recs := recs.map (addCadence eps (saleDays panel) lookback)
  (recs, excluded)

/-! Decay-to-baseline (compute_decay_days_to_baseline of src/metrics.py). -/

/-- Rolling median with window width roll and min_periods = 1 over a series
with possible missing values, as pandas rolling(roll, min_periods=1).median()
computes it: at index i, the median of the non-null values among the
entries max(0, i - roll + 1) .. i, or None when all of them are missing. -/
def rollingMedian (roll : ℕ) (series : List (Option ℚ)) : List (Option ℚ) :=
  (List.range series.length).map (fun i =>
    let window := (series.take (i + 1)).drop (i + 1 - roll)
    let vals := window.filterMap id
    if vals.isEmpty then none else some (medianQ vals))

/-- The per-entry test of the decay scan: pd.notna(value) and
value <= threshold. -/
def decayHit (threshold : ℚ) : Option ℚ → Bool
  | some v => decide (v ≤ threshold)
  | none => false

/-- Linear scan for the first rolling-median entry that is non-null and at
most the threshold (the enumerate loop of compute_decay_days_to_baseline). -/
def firstHitIdx (threshold : ℚ) : List (Option ℚ) → Option ℕ
  | [] => none
  | o :: rest =>
      if decayHit threshold o then some 0
      else (firstHitIdx threshold rest).map (fun i => i + 1)

/-- The post-episode-end slice of the panel used for decay detection:
dates in [sale_end_date + 1, sale_end_date + decay_window], date-ordered. -/
def decaySubset (panel : List PanelRow) (saleEnd decayWindow : Int) :
    List PanelRow :=
  (sortByDate panel).filter
    (fun r => saleEnd + 1 ≤ r.date ∧ r.date ≤ saleEnd + decayWindow)

/-- compute_decay_days_to_baseline from src/metrics.py: the date offset (in
days after sale_end_date) of the first post-end observation at which the
rolling median of the engagement series is at most
baseline × (1 + tolerance). Returns None when the baseline is missing, the
post-end slice is empty, or no observation qualifies within the window. -/
def computeDecayDaysToBaseline (saleEnd : Int) (baseline : Option ℚ)
    (panel : List PanelRow) (decayWindow : Int) (roll : ℕ)
    (tolerance : ℚ) : Option Int :=
  match baseline with
  | none => none
  | some b =>
      let subset := decaySubset panel saleEnd decayWindow
      if subset.isEmpty then none
      else
        let rolling := rollingMedian roll (subset.map (fun r => r.engagement))
        (firstHitIdx (b * (1 + tolerance)) rolling).bind
          (fun i => (subset.get? i).map (fun r => r.date - saleEnd))

/-! Event-window rows, lift and AUL (src/metrics.py, and the per-row lift
of compute_peaks in scripts/build_tail_validation.py). -/

/-- One event-window row as consumed by the metrics calculator. -/
structure EventRow where
  sale_id : ℕ
  k : Int
  lift_ratio : Option ℚ
  lift_pct : Option ℚ
  in_sale : Bool
deriving Repr, DecidableEq, Inhabited

/-- lift_ratio of build_event_window: players / baseline_players, missing
exactly when players is missing. A zero baseline is the one place the
rational model diverges from pandas (pandas produces ±inf rather than
null); theorems about lift therefore assume a nonzero baseline. -/
def liftRatioRow (players : Option ℚ) (baseline : ℚ) : Option ℚ :=
  players.map (fun p => p / baseline)

/-- lift_pct of build_event_window: (lift_ratio - 1) × 100, with no
baseline-floor guard of any kind. -/
def liftPctRow (players : Option ℚ) (baseline : ℚ) : Option ℚ :=
  (liftRatioRow players baseline).map (fun r => (r - 1) * 100)

/-- lift_pct of compute_peaks in build_tail_validation.py:
np.where(baseline_value >= baseline_floor, 100 × (metric - baseline) / baseline, NaN). -/
def peaksLiftPct (metric baseline floorValue : ℚ) : Option ℚ :=
  if floorValue ≤ baseline then some (100 * (metric - baseline) / baseline)
  else none

/-- abs_uplift of compute_peaks: metric - baseline, computed with no floor
guard. -/
def peaksAbsUplift (metric baseline : ℚ) : ℚ := metric - baseline

/-- compute_aul from src/metrics.py: NaN (None) on an empty event window;
otherwise the sum of the per-day clamped deviations max(lift_ratio - 1, 0)
over the in-sale rows, pandas sum skipping missing values. -/
def computeAul (rows : List EventRow) : Option ℚ :=
  if rows.isEmpty then none
  else
    some ((((rows.filter (fun r => r.in_sale)).filterMap
      (fun r => r.lift_ratio)).map (fun x => max (x - 1) 0)).sum)

/-! add_sale_metrics (src/metrics.py): per-sale peak lift, AUL and decay,
with the previously computed metric columns dropped before recomputation. -/

/-- One sale row as seen by add_sale_metrics: the key and base fields the
metric computation reads, plus the dynamic metric columns as an
association list (a pandas DataFrame can carry duplicated or suffixed
metric columns, which is what the drop step guards against). -/
structure MetricSaleRow where
  sale_id : ℕ
  sale_end_date : Int
  baseline_players : Option ℚ
  extras : List (String × Option ℚ)
deriving Repr, DecidableEq, Inhabited

/-- Boolean prefix test on character lists (kernel-evaluable substitute
for the opaque String.startsWith). -/
def listPrefixOf : List Char → List Char → Bool
  | [], _ => true
  | _ :: _, [] => false
  | a :: as, b :: bs => a == b && listPrefixOf as bs

/-- str.startswith(pre) of Python, evaluated on the character lists. -/
def strStartsWith (s pre : String) : Bool := listPrefixOf pre.toList s.toList

/-- The column names dropped by add_sale_metrics before recomputation:
peak_lift_pct, AUL, and any suffixed leftovers of either. -/
def isDroppedMetricCol (name : String) : Bool :=
  name == "peak_lift_pct" || name == "AUL" ||
    strStartsWith name "peak_lift_pct_" || strStartsWith name "AUL_"

/-- A dynamic column survives the metric refresh iff it is neither one of
the dropped stale peak/AUL columns nor the decay column that is
overwritten in place. -/
def keepMetricCol (kv : String × Option ℚ) : Bool :=
  !(isDroppedMetricCol kv.1) && kv.1 ≠ "decay_days_to_baseline"

/-- The drop step of add_sale_metrics followed by the in-place overwrite of
the decay column: stale peak/AUL columns (and suffixed leftovers) are
removed, and the decay column is removed before being rewritten. -/
def cleanExtras (l : List (String × Option ℚ)) : List (String × Option ℚ) :=
  l.filter keepMetricCol

/-- NaN-skipping max of pandas: None on the empty list. -/
def maxOpt (l : List ℚ) : Option ℚ :=
  l.foldl (fun acc x =>
    match acc with
    | none => some x
    | some m => some (max m x)) none

/-- The per-sale-row work of add_sale_metrics: drop stale metric columns,
recompute peak_lift_pct over k in [0, peak_window] of the sale's
event-window group, AUL over the whole group, and the decay day from the
panel, then write the three metric columns. -/
def addSaleMetricsRow (ew : List EventRow) (panel : List PanelRow)
    (peakWindow decayWindow : Int) (roll : ℕ) (tolerance : ℚ)
    (s : MetricSaleRow) : MetricSaleRow :=
  let g := ew.filter (fun r => r.sale_id = s.sale_id)
  let peakSlice := g.filter (fun r => 0 ≤ r.k ∧ r.k ≤ peakWindow)
  let peak := maxOpt (peakSlice.filterMap (fun r => r.lift_pct))
  let aul := computeAul g
  let decay := computeDecayDaysToBaseline s.sale_end_date s.baseline_players
    panel decayWindow roll tolerance
  { s with extras := cleanExtras s.extras ++
      [("peak_lift_pct", peak), ("AUL", aul),
       ("decay_days_to_baseline", decay.map (fun d => (d : ℚ)))] }

/-- add_sale_metrics for one product's sales table. -/
def addSaleMetrics (sales : List MetricSaleRow) (ew : List EventRow)
    (panel : List PanelRow) (peakWindow decayWindow : Int) (roll : ℕ)
    (tolerance : ℚ) : List MetricSaleRow :=
  sales.map (addSaleMetricsRow ew panel peakWindow decayWindow roll tolerance)

/-! Tier collapsing (collapse_tiers_for_segment of build_tail_validation.py). -/

/-- One row of the validation table, reduced to the fields tier collapsing
reads and writes. -/
structure TierRow where
  sale_id : ℕ
  segment : String
  tier : String
deriving Repr, DecidableEq, Inhabited

/-- Minimum of a list of naturals, None on the empty list. -/
def minOptNat : List ℕ → Option ℕ
  | [] => none
  | x :: xs =>
      match minOptNat xs with
      | none => some x
      | some m => some (min x m)

/-- value_counts().min() over the discount tiers present among the rows of
one segment; None on an empty segment (pandas yields NaN there, and
NaN >= MIN_TIER_N is false, so an empty segment also triggers the
collapse branch). -/
def minTierCount (sub : List TierRow) : Option ℕ :=
  let tiers := (sub.map (fun r => r.tier)).dedup
  minOptNat (tiers.map (fun t => (sub.filter (fun r => r.tier = t)).length))

/-- Minimum episodes per tier before collapsing (MIN_TIER_N). -/
def MIN_TIER_N : ℕ := 10

/-- The five ordered discount tiers (DISCOUNT_TIER_ORDER). -/
def DISCOUNT_TIER_ORDER : List String :=
  ["0-10%", "11-25%", "26-50%", "51-75%", "76-100%"]

/-- The per-row rewrite of the collapse branch: rows of the chosen segment
whose tier is one of the top two get the merged "51%+" label; every other
row is untouched. -/
def collapseRow (seg : String) (r : TierRow) : TierRow :=
  if r.segment = seg ∧ (r.tier = "51-75%" ∨ r.tier = "76-100%") then
    { r with tier := "51%+" }
  else r

/-- collapse_tiers_for_segment from build_tail_validation.py: when every
tier present in the segment has at least MIN_TIER_N rows, the frame and
the full tier order are returned unchanged; otherwise the top two tiers
are merged into "51%+" for the rows of that segment only. -/
def collapseTiersForSegment (rows : List TierRow) (seg : String) :
    List TierRow × List String :=
  let sub := rows.filter (fun r => r.segment = seg)
  match minTierCount sub with
  | some m =>
      if MIN_TIER_N ≤ m then (rows, DISCOUNT_TIER_ORDER)
      else (rows.map (collapseRow seg), ["0-10%", "11-25%", "26-50%", "51%+"])
  | none => (rows.map (collapseRow seg), ["0-10%", "11-25%", "26-50%", "51%+"])

/-! Adaptive segmentation (assign_segments of build_tail_validation.py and
the popularity bucket of add_buckets in src/metrics.py). -/

/-- The three popularity segments, in ascending order. -/
inductive Seg where
  | tail
  | mid
  | head
deriving Repr, DecidableEq, Inhabited

/-- SEGMENT_ORDER of build_tail_validation.py. -/
def SEGMENT_ORDER : List Seg := [Seg.tail, Seg.mid, Seg.head]

/-- astype(str) on a nullable segment: a missing segment prints as "nan". -/
def segToString : Option Seg → String
  | none => "nan"
  | some Seg.tail => "tail"
  | some Seg.mid => "mid"
  | some Seg.head => "head"

/-- Quantile of an ascending list with linear interpolation, exactly as
numpy/pandas compute it: position q × (n − 1), interpolating between the
two neighbouring order statistics. Junk value 0 on the empty list. -/
def quantileOfSorted (s : List ℚ) (q : ℚ) : ℚ :=
  let n := s.length
  if n = 0 then 0
  else
    let pos : ℚ := q * ((n : ℚ) - 1)
    let i : ℕ := (Rat.floor pos).toNat
    let frac : ℚ := pos - (i : ℚ)
    if i + 1 < n then s.getD i 0 + frac * (s.getD (i + 1) 0 - s.getD i 0)
    else s.getD i 0

/-- qcut(clean, q = qs, labels = SEGMENT_ORDER, duplicates = "drop"): the
bin edges are the data quantiles at qs; after duplicate edges are dropped,
pandas raises ValueError when the bin count no longer matches the label
count, modelled as None. On success the bins are right-closed with the
lowest bin including its left edge; since the outer edges are the data
minimum and maximum, every value lands in a bin. -/
def qcutSegments (xs : List ℚ) (qs : List ℚ) : Option (List Seg) :=
  let s := sortQ xs
  let edges := qs.map (quantileOfSorted s)
  let uniq := edges.dedup
  if uniq.length = qs.length then
    some (xs.map (fun x =>
      if x ≤ uniq.getD 1 0 then Seg.tail
      else if x ≤ uniq.getD 2 0 then Seg.mid
      else Seg.head))
  else none

/-- rank(method = "average", pct = True) of one value within the series:
the average one-based rank of its ties, divided by the series length. -/
def pctRank (xs : List ℚ) (x : ℚ) : ℚ :=
  (((xs.filter (fun y => y < x)).length : ℚ) +
    (((xs.filter (fun y => y = x)).length : ℚ) + 1) / 2) / (xs.length : ℚ)

/-- cut(pct, bins = qs, labels = SEGMENT_ORDER, include_lowest = True):
right-closed bins over the quantile points, the first bin including its
left edge; a value outside every bin maps to NaN (None). -/
def cutBin (qs : List ℚ) (x : ℚ) : Option Seg :=
  if qs.getD 0 0 ≤ x ∧ x ≤ qs.getD 1 0 then some Seg.tail
  else if qs.getD 1 0 < x ∧ x ≤ qs.getD 2 0 then some Seg.mid
  else if qs.getD 2 0 < x ∧ x ≤ qs.getD 3 0 then some Seg.head
  else none

/-- Percentile-rank fallback binning of assign_segments. -/
def fallbackSegments (xs : List ℚ) (qs : List ℚ) : List (Option Seg) :=
  xs.map (fun x => cutBin qs (pctRank xs x))

/-- One try/except block of assign_segments: the primary quantile cut, with
the rank-based binning as the fallback when the cut fails. -/
def assignSegmentsOnce (xs : List ℚ) (qs : List ℚ) : List (Option Seg) :=
  match qcutSegments xs qs with
  | some segs => segs.map some
  | none => fallbackSegments xs qs

/-- Minimum rows per segment before the tail is widened (MIN_SEGMENT_N). -/
def MIN_SEGMENT_N : ℕ := 25

/-- segments.value_counts(dropna = True).min(): the smallest count among
the segment labels actually present; None when no label is present
(pandas yields NaN there, and NaN < MIN_SEGMENT_N is false). -/
def minSegCount (l : List (Option Seg)) : Option ℕ :=
  minOptNat ((SEGMENT_ORDER.map (fun s => l.count (some s))).filter
    (fun c => 0 < c))

/-- assign_segments from build_tail_validation.py, over the non-null
baseline values (pandas carries null baselines through both cuts as NaN
and they print as "nan"; the notes list only records human-readable
messages and is not modelled). Fewer than 200 events switch the split to
terciles; if the smallest populated segment stays below MIN_SEGMENT_N the
split is widened to [0, 0.5, 0.8, 1] and reassigned once. -/
def assignSegments (xs : List ℚ) : List String :=
  let qs : List ℚ :=
    if xs.length < 200 then [0, 1/3, 2/3, 1] else [0, 2/5, 4/5, 1]
  let segs := assignSegmentsOnce xs qs
  let redo : Bool :=
    match minSegCount segs with
    | some m => decide (m < MIN_SEGMENT_N)
    | none => false
  let final := if redo then assignSegmentsOnce xs [0, 1/2, 4/5, 1] else segs
  final.map segToString

/-- Bin index of a value against ascending qcut edges: the first
right-closed bin whose upper edge is at least the value. -/
def qcutBinIdx (edges : List ℚ) (x : ℚ) : ℕ :=
  (((List.range (edges.length - 1)).find?
    (fun j => x ≤ edges.getD (j + 1) 0)).getD (edges.length - 2))

/-- popularity_bucket assignment of add_buckets (src/metrics.py): qcut of
the non-null baseline_players into `quantiles` bins labelled Q1..Qn with
duplicates dropped. The ValueError raised when dropping duplicate edges
leaves fewer bins than labels is caught, and every row's bucket becomes
NA (None) — there is no rank-based fallback here. -/
def popularityBucket (vals : List ℚ) (quantiles : ℕ) : List (Option String) :=
  if vals.length = 0 then vals.map (fun _ => none)
  else
    let s := sortQ vals
    let qs := (List.range (quantiles + 1)).map
      (fun i => (i : ℚ) / (quantiles : ℚ))
    let edges := qs.map (quantileOfSorted s)
    let uniq := edges.dedup
    if uniq.length = quantiles + 1 then
      vals.map (fun x => some ("Q" ++ toString (qcutBinIdx uniq x + 1)))
    else vals.map (fun _ => none)

/-! General helper lemmas. -/

theorem length_filter_le_add_lt (f : Episode → ℕ) (t : ℕ) (l : List Episode) :
    (l.filter (fun e => t ≤ f e)).length +
      (l.filter (fun e => f e < t)).length = l.length := by
  induction l with
  | nil => simp
  | cons a l ih =>
      by_cases h : t ≤ f a
      · have h2 : ¬ f a < t := by omega
        simp only [List.filter_cons]
        simp [h, h2]
        omega
      · have h2 : f a < t := by omega
        simp only [List.filter_cons]
        simp [h, h2]
        omega

theorem minOptNat_spec {l : List ℕ} {x : ℕ} (hx : x ∈ l) :
    ∃ m, minOptNat l = some m ∧ m ≤ x := by
  induction l with
  | nil => cases hx
  | cons a l ih =>
      rcases List.mem_cons.mp hx with rfl | hx
      · cases hml : minOptNat l with
        | none => exact ⟨x, by simp [minOptNat, hml], le_rfl⟩
        | some m => exact ⟨min x m, by simp [minOptNat, hml], min_le_left _ _⟩
      · rcases ih hx with ⟨m, hm, hmx⟩
        cases hml : minOptNat l with
        | none => rw [hml] at hm; cases hm
        | some m2 =>
            rw [hml] at hm
            exact ⟨min a m2, by simp [minOptNat, hml],
              le_trans (min_le_right _ _) (by injection hm with h; omega)⟩

theorem filter_self_idem {α : Type} (p : α → Bool) (l : List α) :
    (l.filter p).filter p = l.filter p := by
  induction l with
  | nil => rfl
  | cons a l ih =>
      by_cases h : p a
      · simp [List.filter_cons, h, ih]
      · simp [List.filter_cons, h, ih]

/-! Claim C4: episode grouping on the spec's concrete discount sequences. -/

/-- C4: episode detection groups discount days (discount > 0, null treated
as 0) into maximal contiguous runs, splitting exactly at gaps of more than
one day: the sequence [0]*14 ++ [10,10] ++ [0]*4 yields one episode over
the two discount days, [0]*14 ++ [10,10,0,10,10] ++ [0]*2 yields two
episodes, an all-zero sequence yields no episode, and a null discount is
not a discount day. -/
theorem claim_C4_episode_grouping :
    buildEpisodes (saleDays (mkPanel
        (List.replicate 14 0 ++ [10, 10] ++ List.replicate 4 0))) =
      [⟨14, 15⟩] ∧
    buildEpisodes (saleDays (mkPanel
        (List.replicate 14 0 ++ [10, 10, 0, 10, 10] ++ List.replicate 2 0))) =
      [⟨14, 15⟩, ⟨17, 18⟩] ∧
    buildEpisodes (saleDays (mkPanel (List.replicate 20 0))) = [] ∧
    saleDays [⟨0, some 100, none⟩] = [] := by
  refine ⟨by decide, by decide, by decide, by decide⟩

/-! Claim C10: compute_aul on empty, sale-free and general inputs. -/

/-- C10: compute_aul returns NaN (None) on an empty event window; on any
non-empty window the result is a defined, non-negative number because each
per-day deviation lift_ratio − 1 is clamped to 0 from below before
summing; and a non-empty window without in-sale rows yields exactly 0. -/
theorem claim_C10_compute_aul (rows : List EventRow) (hne : rows ≠ []) :
    computeAul [] = none ∧
    (∃ v, computeAul rows = some v ∧ 0 ≤ v) ∧
    ((∀ r ∈ rows, r.in_sale = false) → computeAul rows = some 0) := by
  have hempty : rows.isEmpty = false := by
    cases rows with
    | nil => exact absurd rfl hne
    | cons a l => rfl
  refine ⟨rfl, ?_, ?_⟩
  · refine ⟨(((rows.filter (fun r => r.in_sale)).filterMap
        (fun r => r.lift_ratio)).map (fun x => max (x - 1) 0)).sum,
        by simp [computeAul, hempty], ?_⟩
    apply List.sum_nonneg
    intro x hx
    rcases List.mem_map.mp hx with ⟨v, _, rfl⟩
    exact le_max_right _ _
  · intro hno
    have hfil : rows.filter (fun r => r.in_sale) = [] := by
      rw [List.filter_eq_nil_iff]
      intro r hr
      simp [hno r hr]
    simp [computeAul, hempty, hfil]

/-- C10 witness: concrete instances of the three branches. -/
theorem claim_C10_witness :
    computeAul [⟨1, 0, none, none, false⟩] = some 0 ∧
    (∃ v, computeAul [⟨1, 0, some (8/10), none, true⟩,
        ⟨1, 1, some (15/10), none, true⟩] = some v ∧ 0 ≤ v) :=
  ⟨(claim_C10_compute_aul [⟨1, 0, none, none, false⟩] (by decide)).2.2
      (by decide),
   (claim_C10_compute_aul [⟨1, 0, some (8/10), none, true⟩,
      ⟨1, 1, some (15/10), none, true⟩] (by decide)).2.1⟩

/-! Claim C2: lift ratio and the baseline floor. -/

/-- C2 counterexample: in build_event_window there is no baseline floor at
all — with the script's positive playercount floor 1 and a baseline of
1/2 below it, the event-window row still carries a non-null lift_pct
(here 100), contradicting the claim that lift_pct is null whenever the
baseline is below the positive floor. -/
theorem claim_C2_counterexample :
    (1 : ℚ) / 2 < 1 ∧
    liftPctRow (some 1) ((1 : ℚ) / 2) = some 100 ∧
    liftPctRow (some 1) ((1 : ℚ) / 2) ≠ none := by
  refine ⟨by norm_num, ?_, ?_⟩
  · simp [liftPctRow, liftRatioRow]
    norm_num
  · simp [liftPctRow, liftRatioRow]

/-- C2 amended: build_event_window always computes
lift_ratio = players / baseline and lift_pct = (lift_ratio − 1) × 100 for
rows with observed players (null players propagate to null lift), with no
floor check; the below-floor nulling of the percentage lift lives in
compute_peaks of the tail-validation script, where lift_pct is null
exactly when baseline < floor while the absolute uplift is still
computed. -/
theorem claim_C2_amended (p b floorValue m : ℚ) :
    liftRatioRow (some p) b = some (p / b) ∧
    liftPctRow (some p) b = some ((p / b - 1) * 100) ∧
    liftRatioRow none b = none ∧
    liftPctRow none b = none ∧
    (b < floorValue → peaksLiftPct m b floorValue = none) ∧
    (floorValue ≤ b → peaksLiftPct m b floorValue = some (100 * (m - b) / b)) ∧
    peaksAbsUplift m b = m - b := by
  refine ⟨rfl, rfl, rfl, rfl, ?_, ?_, rfl⟩
  · intro h
    simp [peaksLiftPct, not_le.mpr h]
  · intro h
    simp [peaksLiftPct, h]

/-- C2 witness: the floored script lift at a below-floor and an
above-floor baseline. -/
theorem claim_C2_witness :
    peaksLiftPct 3 (1/2) 1 = none ∧
    peaksLiftPct 3 2 1 = some (100 * (3 - 2) / 2) :=
  ⟨(claim_C2_amended 1 (1/2) 1 3).2.2.2.2.1 (by norm_num),
   (claim_C2_amended 1 2 1 3).2.2.2.2.2.1 (by norm_num)⟩

/-! Preservation lemmas for the recency pass of detect_sales. -/

theorem mem_addDaysSinceLastSale :
    ∀ (p : Option Int) (rs : List SaleRecord) (x : SaleRecord),
      x ∈ addDaysSinceLastSale p rs →
      ∃ y ∈ rs, x.sale_start_date = y.sale_start_date ∧
        x.sale_end_date = y.sale_end_date ∧
        x.sale_duration_days = y.sale_duration_days ∧
        x.sale_depth_max = y.sale_depth_max ∧
        x.baseline_players = y.baseline_players := by
  intro p rs
  induction rs generalizing p with
  | nil => intro x hx; cases hx
  | cons r rs ih =>
      intro x hx
      simp only [addDaysSinceLastSale] at hx
      rcases List.mem_cons.mp hx with rfl | hx
      · exact ⟨r, by simp, rfl, rfl, rfl, rfl, rfl⟩
      · rcases ih _ x hx with ⟨y, hy, h⟩
        exact ⟨y, List.mem_cons_of_mem _ hy, h⟩

theorem pairwise_addDaysSinceLastSale (p : Option Int) (rs : List SaleRecord)
    (h : rs.Pairwise (fun a b => a.sale_end_date < b.sale_start_date ∧
      a.sale_start_date ≤ b.sale_start_date)) :
    (addDaysSinceLastSale p rs).Pairwise (fun a b =>
      a.sale_end_date < b.sale_start_date ∧
      a.sale_start_date ≤ b.sale_start_date) := by
  induction rs generalizing p with
  | nil => simp [addDaysSinceLastSale]
  | cons r rs ih =>
      rcases List.pairwise_cons.mp h with ⟨hr, hrs⟩
      simp only [addDaysSinceLastSale]
      refine List.pairwise_cons.mpr ⟨?_, ih _ hrs⟩
      intro x hx
      rcases mem_addDaysSinceLastSale _ _ x hx with ⟨y, hy, h1, h2, _⟩
      have hry := hr y hy
      exact ⟨by rw [h1]; exact hry.1, by rw [h1]; exact hry.2⟩

/-! Claim C3: structural invariants of detected episodes and records. -/

/-- C3: every detected episode has start ≤ end and duration
end − start + 1 ≥ 1; episodes of a product are pairwise non-overlapping
and ordered by start date; and the same facts hold for the retained sale
records emitted by detect_sales, whose duration field carries the same
formula. -/
theorem claim_C3_episode_invariants (panel : List PanelRow)
    (preDays excludeDays lookback : Int) :
    (∀ e ∈ buildEpisodes (saleDays panel),
        e.start_date ≤ e.end_date ∧
        durationDays e = e.end_date - e.start_date + 1 ∧
        1 ≤ durationDays e) ∧
    (buildEpisodes (saleDays panel)).Pairwise
      (fun a b => a.end_date < b.start_date ∧ a.start_date ≤ b.start_date) ∧
    (∀ r ∈ (detectSales panel preDays excludeDays lookback).1,
        r.sale_start_date ≤ r.sale_end_date ∧
        r.sale_duration_days = r.sale_end_date - r.sale_start_date + 1 ∧
        1 ≤ r.sale_duration_days) ∧
    ((detectSales panel preDays excludeDays lookback).1).Pairwise
      (fun a b => a.sale_end_date < b.sale_start_date ∧
        a.sale_start_date ≤ b.sale_start_date) := by
  have hwf := buildEpisodes_wf (sorted_saleDays panel)
  have hpair2 : (buildEpisodes (saleDays panel)).Pairwise
      (fun a b => a.end_date < b.start_date ∧ a.start_date ≤ b.start_date) := by
    refine List.Pairwise.imp_of_mem ?_ hwf.2
    intro a b ha _ hab
    have h1 := hwf.1 a ha
    exact ⟨hab, by omega⟩
  refine ⟨?_, hpair2, ?_, ?_⟩
  · intro e he
    have h1 := hwf.1 e he
    exact ⟨h1, rfl, by unfold durationDays; omega⟩
  · intro r hr
    simp only [detectSales, List.mem_map] at hr
    rcases hr with ⟨r1, hr1, rfl⟩
    rcases mem_addDaysSinceLastSale _ _ r1 hr1 with ⟨y, hy, h1, h2, h3, _⟩
    rcases List.mem_map.mp hy with ⟨e, he, rfl⟩
    have he2 : e ∈ buildEpisodes (saleDays panel) := (List.mem_filter.mp he).1
    have hse := hwf.1 e he2
    have hs : r1.sale_start_date = e.start_date := h1
    have hend : r1.sale_end_date = e.end_date := h2
    have hdur : r1.sale_duration_days = durationDays e := h3
    refine ⟨?_, ?_, ?_⟩
    · show r1.sale_start_date ≤ r1.sale_end_date
      rw [hs, hend]; exact hse
    · show r1.sale_duration_days = r1.sale_end_date - r1.sale_start_date + 1
      rw [hs, hend, hdur]; unfold durationDays; ring
    · show 1 ≤ r1.sale_duration_days
      rw [hdur]; unfold durationDays; omega
  · simp only [detectSales]
    rw [List.pairwise_map]
    apply pairwise_addDaysSinceLastSale
    rw [List.pairwise_map]
    refine List.Pairwise.imp ?_ (hpair2.filter _)
    intro a b hab
    exact hab

theorem addDaysSinceLastSale_length :
    ∀ (p : Option Int) (rs : List SaleRecord),
      (addDaysSinceLastSale p rs).length = rs.length := by
  intro p rs
  induction rs generalizing p with
  | nil => rfl
  | cons r rs ih => simp [addDaysSinceLastSale, ih]

theorem mem_addDaysSinceLastSale_of_mem :
    ∀ (p : Option Int) (rs : List SaleRecord) (y : SaleRecord), y ∈ rs →
      ∃ x ∈ addDaysSinceLastSale p rs,
        x.sale_start_date = y.sale_start_date ∧
        x.sale_end_date = y.sale_end_date ∧
        x.baseline_players = y.baseline_players := by
  intro p rs
  induction rs generalizing p with
  | nil => intro y hy; cases hy
  | cons r rs ih =>
      intro y hy
      rcases List.mem_cons.mp hy with rfl | hy
      · refine ⟨{ y with days_since_last_sale := Option.map (fun pe => y.sale_start_date - pe) p }, ?_, rfl, rfl, rfl⟩
        simp [addDaysSinceLastSale]
      · rcases ih (some r.sale_end_date) y hy with ⟨x, hx, h⟩
        refine ⟨x, ?_, h⟩
        simp only [addDaysSinceLastSale]
        exact List.mem_cons_of_mem _ hx

/-! Claim C5: baseline computation and the counted exclusion policy. -/

/-- C5: each detected episode's baseline is the median of the non-null
engagement observations in [start − preDays, start − excludeDays]; every
episode with fewer than 7 such observations is excluded from the returned
records, each exclusion is counted in the statistic returned alongside the
results (retained + excluded = all detected episodes), and every
sufficiently-sampled episode does yield a record carrying that median. -/
theorem claim_C5_baseline_policy (panel : List PanelRow)
    (preDays excludeDays lookback : Int) :
    ((detectSales panel preDays excludeDays lookback).1.length +
        (detectSales panel preDays excludeDays lookback).2 =
      (buildEpisodes (saleDays panel)).length) ∧
    ((detectSales panel preDays excludeDays lookback).2 =
      ((buildEpisodes (saleDays panel)).filter (fun e =>
        baselineSampleDays panel preDays excludeDays e < minBaselineDays)).length) ∧
    (∀ r ∈ (detectSales panel preDays excludeDays lookback).1,
      ∃ e ∈ buildEpisodes (saleDays panel),
        minBaselineDays ≤ baselineSampleDays panel preDays excludeDays e ∧
        r.sale_start_date = e.start_date ∧
        r.sale_end_date = e.end_date ∧
        r.baseline_players = medianQ (baselineValues panel preDays excludeDays e)) ∧
    (∀ e ∈ buildEpisodes (saleDays panel),
      minBaselineDays ≤ baselineSampleDays panel preDays excludeDays e →
      ∃ r ∈ (detectSales panel preDays excludeDays lookback).1,
        r.sale_start_date = e.start_date ∧ r.sale_end_date = e.end_date ∧
        r.baseline_players = medianQ (baselineValues panel preDays excludeDays e)) := by
  refine ⟨?_, rfl, ?_, ?_⟩
  · show (List.map _ (addDaysSinceLastSale none (List.map _ (List.filter _ _)))).length + _ = _
    rw [List.length_map, addDaysSinceLastSale_length, List.length_map]
    exact length_filter_le_add_lt
      (baselineSampleDays panel preDays excludeDays) minBaselineDays _
  · intro r hr
    simp only [detectSales, List.mem_map] at hr
    rcases hr with ⟨r1, hr1, rfl⟩
    rcases mem_addDaysSinceLastSale _ _ r1 hr1 with ⟨y, hy, h1, h2, _, _, h5⟩
    rcases List.mem_map.mp hy with ⟨e, he, rfl⟩
    have hmem := List.mem_filter.mp he
    refine ⟨e, hmem.1, by simpa using hmem.2, ?_, ?_, ?_⟩
    · show r1.sale_start_date = e.start_date
      exact h1
    · show r1.sale_end_date = e.end_date
      exact h2
    · show r1.baseline_players = medianQ (baselineValues panel preDays excludeDays e)
      exact h5
  · intro e he hdays
    have hmem : e ∈ (buildEpisodes (saleDays panel)).filter (fun e =>
        minBaselineDays ≤ baselineSampleDays panel preDays excludeDays e) :=
      List.mem_filter.mpr ⟨he, by simpa using hdays⟩
    have hy : mkSaleRecord panel preDays excludeDays e ∈
        (List.filter (fun e => minBaselineDays ≤
          baselineSampleDays panel preDays excludeDays e)
          (buildEpisodes (saleDays panel))).map
            (mkSaleRecord panel preDays excludeDays) :=
      List.mem_map_of_mem _ hmem
    rcases mem_addDaysSinceLastSale_of_mem none _ _ hy with ⟨x, hx, hx1, hx2, hx3⟩
    refine ⟨addCadence (buildEpisodes (saleDays panel)) (saleDays panel) lookback x,
      ?_, ?_, ?_, ?_⟩
    · simp only [detectSales]
      exact List.mem_map_of_mem _ hx
    · show x.sale_start_date = e.start_date
      exact hx1
    · show x.sale_end_date = e.end_date
      exact hx2
    · show x.baseline_players = medianQ (baselineValues panel preDays excludeDays e)
      exact hx3

/-- Concrete discount sequence for the C5 witness: a one-day sale on day 2
whose baseline window holds only two observed days (excluded), and a
one-day sale on day 15 with a fully observed 14-day window (retained). -/
def c5Discounts : List ℚ := [0, 0, 10] ++ List.replicate 12 0 ++ [10]

/-- C5 witness: on the concrete panel, retained + excluded = number of
detected episodes, and the retained episode's record carries the median
baseline. -/
theorem claim_C5_witness :
    ((detectSales (mkPanel c5Discounts) 14 1 90).1.length +
        (detectSales (mkPanel c5Discounts) 14 1 90).2 =
      (buildEpisodes (saleDays (mkPanel c5Discounts))).length) ∧
    (∃ r ∈ (detectSales (mkPanel c5Discounts) 14 1 90).1,
        r.sale_start_date = Episode.start_date ⟨15, 15⟩ ∧
        r.sale_end_date = Episode.end_date ⟨15, 15⟩ ∧
        r.baseline_players =
          medianQ (baselineValues (mkPanel c5Discounts) 14 1 ⟨15, 15⟩)) :=
  ⟨(claim_C5_baseline_policy (mkPanel c5Discounts) 14 1 90).1,
   (claim_C5_baseline_policy (mkPanel c5Discounts) 14 1 90).2.2.2
     ⟨15, 15⟩ (by decide) (by decide)⟩

theorem addDaysSinceLastSale_getD_zero (rs : List SaleRecord)
    (d : SaleRecord) (h0 : 0 < rs.length) :
    ((addDaysSinceLastSale none rs).getD 0 d).days_since_last_sale = none := by
  cases rs with
  | nil => simp at h0
  | cons r rs => rfl

theorem addDaysSinceLastSale_getD_succ :
    ∀ (p : Option Int) (rs : List SaleRecord) (i : ℕ) (d : SaleRecord),
      i + 1 < rs.length →
      ((addDaysSinceLastSale p rs).getD (i + 1) d).days_since_last_sale =
        some (((addDaysSinceLastSale p rs).getD (i + 1) d).sale_start_date -
          ((addDaysSinceLastSale p rs).getD i d).sale_end_date) := by
  intro p rs
  induction rs generalizing p with
  | nil => intro i d hi; simp at hi
  | cons r rs ih =>
      intro i d hi
      cases i with
      | zero =>
          cases rs with
          | nil => simp at hi
          | cons s rs2 =>
              simp only [addDaysSinceLastSale, List.getD_cons_succ,
                List.getD_cons_zero]
              rfl
      | succ j =>
          have hj : j + 1 < rs.length := by
            simpa using Nat.lt_of_succ_lt_succ hi
          have := ih (some r.sale_end_date) j d hj
          simpa only [addDaysSinceLastSale, List.getD_cons_succ] using this

theorem getD_map_addCadence (eps : List Episode) (sd : List Int) (lb : Int)
    (l : List SaleRecord) (i : ℕ) (d : SaleRecord) (hi : i < l.length) :
    ((l.map (addCadence eps sd lb)).getD i d).days_since_last_sale =
      (l.getD i d).days_since_last_sale ∧
    ((l.map (addCadence eps sd lb)).getD i d).sale_start_date =
      (l.getD i d).sale_start_date ∧
    ((l.map (addCadence eps sd lb)).getD i d).sale_end_date =
      (l.getD i d).sale_end_date := by
  have hi2 : i < (l.map (addCadence eps sd lb)).length := by simpa using hi
  rw [List.getD_eq_getElem _ _ hi2, List.getD_eq_getElem _ _ hi,
    List.getElem_map]
  exact ⟨rfl, rfl, rfl⟩

/-! Claim C9: cadence counts use all detected episodes, recency only
retained ones. -/

/-- C9: for every retained record, sales_count_last_90d counts ALL
detected episodes of the product overlapping the trailing window
(including episodes later excluded for insufficient baseline sample) and
sale_days_last_90d counts all discount days there; days_since_last_sale
is None for the first retained record and otherwise measures the gap from
the previous RETAINED record's end date — an excluded episode never
serves as the previous sale. -/
theorem claim_C9_cadence_from_all_episodes (panel : List PanelRow)
    (preDays excludeDays lookback : Int) (d : SaleRecord) :
    (∀ r ∈ (detectSales panel preDays excludeDays lookback).1,
      r.sales_count_last_90d =
        episodesOverlappingWindow (buildEpisodes (saleDays panel))
          (r.sale_start_date - lookback) (r.sale_start_date - 1) ∧
      r.sale_days_last_90d =
        ((saleDays panel).filter (fun day =>
          r.sale_start_date - lookback ≤ day ∧
            day ≤ r.sale_start_date - 1)).length) ∧
    (0 < (detectSales panel preDays excludeDays lookback).1.length →
      ((detectSales panel preDays excludeDays lookback).1.getD 0
        d).days_since_last_sale = none) ∧
    (∀ i : ℕ, i + 1 < (detectSales panel preDays excludeDays lookback).1.length →
      ((detectSales panel preDays excludeDays lookback).1.getD (i + 1)
          d).days_since_last_sale =
        some (((detectSales panel preDays excludeDays lookback).1.getD (i + 1)
            d).sale_start_date -
          ((detectSales panel preDays excludeDays lookback).1.getD i
            d).sale_end_date)) := by
  simp only [detectSales]
  refine ⟨?_, ?_, ?_⟩
  · intro r hr
    rcases List.mem_map.mp hr with ⟨r0, _, rfl⟩
    exact ⟨rfl, rfl⟩
  · intro h0
    rw [List.length_map] at h0
    rw [(getD_map_addCadence _ _ _ _ _ d h0).1]
    rw [addDaysSinceLastSale_length] at h0
    exact addDaysSinceLastSale_getD_zero _ d h0
  · intro i hi
    rw [List.length_map] at hi
    have hi0 : i < (addDaysSinceLastSale none
        (List.map (mkSaleRecord panel preDays excludeDays)
          (List.filter (fun e => minBaselineDays ≤
            baselineSampleDays panel preDays excludeDays e)
            (buildEpisodes (saleDays panel))))).length := by omega
    rw [(getD_map_addCadence _ _ _ _ _ d hi).1,
      (getD_map_addCadence _ _ _ _ _ d hi).2.1,
      (getD_map_addCadence _ _ _ _ _ d hi0).2.2]
    rw [addDaysSinceLastSale_length] at hi
    exact addDaysSinceLastSale_getD_succ none _ i d hi

/-- Concrete panel for the C9 witness: three one-product episodes on days
15-16, 25-26 and 45-46; engagement is observed everywhere except days
15..34, so the middle episode has only 4 baseline observations and is
excluded while the outer two are retained. -/
def c9Panel : List PanelRow :=
  (List.range 52).map (fun i =>
    ⟨(i : Int),
      if 15 ≤ i ∧ i ≤ 34 then none else some 100,
      if i = 15 ∨ i = 16 ∨ i = 25 ∨ i = 26 ∨ i = 45 ∨ i = 46 then some 10
      else some 0⟩)

/-- C9 witness: on the concrete panel the excluded middle episode still
counts toward the second retained record's trailing sales count (2, not
1), while days_since_last_sale skips it and measures 45 − 16 = 29 back to
the first retained episode. -/
theorem claim_C9_witness :
    (((detectSales c9Panel 14 1 90).1.getD 1 default).days_since_last_sale =
      some (((detectSales c9Panel 14 1 90).1.getD 1
          default).sale_start_date -
        ((detectSales c9Panel 14 1 90).1.getD 0 default).sale_end_date)) ∧
    (∃ r ∈ (detectSales c9Panel 14 1 90).1,
      r.sales_count_last_90d =
        episodesOverlappingWindow (buildEpisodes (saleDays c9Panel))
          (r.sale_start_date - 90) (r.sale_start_date - 1)) ∧
    (detectSales c9Panel 14 1 90).2 = 1 ∧
    ((detectSales c9Panel 14 1 90).1.getD 1
        default).days_since_last_sale = some 29 ∧
    ((detectSales c9Panel 14 1 90).1.getD 1 default).sales_count_last_90d = 2 := by
  have hlen : 1 < (detectSales c9Panel 14 1 90).1.length := by decide
  have hm : (detectSales c9Panel 14 1 90).1.getD 1 default ∈
      (detectSales c9Panel 14 1 90).1 := by
    rw [List.getD_eq_getElem _ _ hlen]
    exact List.getElem_mem _
  refine ⟨(claim_C9_cadence_from_all_episodes c9Panel 14 1 90 default).2.2 0
      (by decide), ?_, by decide, by decide, by decide⟩
  refine ⟨(detectSales c9Panel 14 1 90).1.getD 1 default, hm, ?_⟩
  exact ((claim_C9_cadence_from_all_episodes c9Panel 14 1 90 default).1
    ((detectSales c9Panel 14 1 90).1.getD 1 default) hm).1

/-! Characterization of the decay scan. -/

theorem length_rollingMedian (roll : ℕ) (series : List (Option ℚ)) :
    (rollingMedian roll series).length = series.length := by
  simp [rollingMedian]

theorem firstHitIdx_cons_pos {t : ℚ} {o : Option ℚ} {rest : List (Option ℚ)}
    (h : decayHit t o = true) : firstHitIdx t (o :: rest) = some 0 := by
  simp [firstHitIdx, h]

theorem firstHitIdx_cons_neg {t : ℚ} {o : Option ℚ} {rest : List (Option ℚ)}
    (h : decayHit t o = false) :
    firstHitIdx t (o :: rest) = (firstHitIdx t rest).map (fun i => i + 1) := by
  simp [firstHitIdx, h]

theorem firstHitIdx_eq_none_iff {t : ℚ} {l : List (Option ℚ)} :
    firstHitIdx t l = none ↔
      ∀ i < l.length, decayHit t (l.getD i none) = false := by
  induction l with
  | nil => simp [firstHitIdx]
  | cons o rest ih =>
      by_cases h : decayHit t o = true
      · rw [firstHitIdx_cons_pos h]
        constructor
        · intro hc; cases hc
        · intro hall
          have h0 := hall 0 (by simp)
          simp only [List.getD_cons_zero] at h0
          rw [h0] at h; cases h
      · have hfalse : decayHit t o = false := by
          cases hb : decayHit t o
          · rfl
          · exact absurd hb h
        rw [firstHitIdx_cons_neg hfalse, Option.map_eq_none']
        rw [ih]
        constructor
        · intro hall i hi
          cases i with
          | zero => simpa using hfalse
          | succ j =>
              simp only [List.getD_cons_succ]
              exact hall j (by simpa using Nat.lt_of_succ_lt_succ hi)
        · intro hall j hj
          have := hall (j + 1) (by simpa using Nat.succ_lt_succ hj)
          simpa only [List.getD_cons_succ] using this

theorem firstHitIdx_eq_some_iff {t : ℚ} {l : List (Option ℚ)} {i : ℕ} :
    firstHitIdx t l = some i ↔
      (i < l.length ∧ decayHit t (l.getD i none) = true ∧
        ∀ j < i, decayHit t (l.getD j none) = false) := by
  induction l generalizing i with
  | nil => simp [firstHitIdx]
  | cons o rest ih =>
      by_cases h : decayHit t o = true
      · rw [firstHitIdx_cons_pos h]
        constructor
        · intro he
          injection he with he
          subst he
          exact ⟨by simp, by simpa using h, by omega⟩
        · rintro ⟨hi, hhit, hprev⟩
          cases i with
          | zero => rfl
          | succ j =>
              have h0 := hprev 0 (Nat.succ_pos j)
              simp only [List.getD_cons_zero] at h0
              rw [h0] at h; cases h
      · have hfalse : decayHit t o = false := by
          cases hb : decayHit t o
          · rfl
          · exact absurd hb h
        rw [firstHitIdx_cons_neg hfalse, Option.map_eq_some']
        constructor
        · rintro ⟨a, ha, rfl⟩
          rcases ih.mp ha with ⟨hlen, hhit, hprev⟩
          refine ⟨by simpa using Nat.succ_lt_succ hlen, by simpa using hhit, ?_⟩
          intro j hj
          cases j with
          | zero => simpa using hfalse
          | succ k =>
              simp only [List.getD_cons_succ]
              exact hprev k (Nat.lt_of_succ_lt_succ hj)
        · rintro ⟨hi, hhit, hprev⟩
          cases i with
          | zero =>
              simp only [List.getD_cons_zero] at hhit
              rw [hhit] at hfalse; cases hfalse
          | succ j =>
              refine ⟨j, ih.mpr ⟨?_, ?_, ?_⟩, rfl⟩
              · simpa using Nat.lt_of_succ_lt_succ hi
              · simpa only [List.getD_cons_succ] using hhit
              · intro k hk
                have := hprev (k + 1) (Nat.succ_lt_succ hk)
                simpa only [List.getD_cons_succ] using this

/-! Claim C1: decay day via the rolling median, and what happens when the
series never returns to baseline. -/

/-- C1 counterexample panel: the engagement stays at 200 on every observed
post-end day. -/
def c1HighPanel : List PanelRow := [⟨1, some 200, none⟩, ⟨2, some 200, none⟩]

section RatKernelEval

attribute [local semireducible] Rat.mul Rat.add Rat.sub Rat.inv

/-- C1 counterexample: with baseline 100, tolerance 5% and window 14, the
rolling median never returns to within tolerance on this panel, and
compute_decay_days_to_baseline yields None — not a right-censored decay
day of decay_window_days = 14, and its result carries no decay_censored
flag at all (the censored-at-14 flag exists only in the validation
script's compute_decay, which compares the raw series to the baseline
without rolling median or tolerance, measured from sale start). -/
theorem claim_C1_counterexample :
    computeDecayDaysToBaseline 0 (some 100) c1HighPanel 14 3 (5/100) = none ∧
    computeDecayDaysToBaseline 0 (some 100) c1HighPanel 14 3 (5/100) ≠
      some 14 := by
  refine ⟨by decide, by decide⟩

/-- C1 amended: for a retained episode, compute_decay_days_to_baseline
returns the smallest post-end date offset (necessarily in
[1, decay_window_days]) at which the rolling median (window roll,
min_periods 1) of the date-ordered post-end engagement series is at most
baseline × (1 + tolerance); when no observation within the window
qualifies — or the baseline is missing — it returns None rather than a
censored value. -/
theorem claim_C1_amended (saleEnd : Int) (b : ℚ) (panel : List PanelRow)
    (decayWindow : Int) (roll : ℕ) (tolerance : ℚ) :
    ((∀ i < (decaySubset panel saleEnd decayWindow).length,
        decayHit (b * (1 + tolerance))
          ((rollingMedian roll ((decaySubset panel saleEnd decayWindow).map
            (fun r => r.engagement))).getD i none) = false) →
      computeDecayDaysToBaseline saleEnd (some b) panel decayWindow roll
        tolerance = none) ∧
    (∀ i < (decaySubset panel saleEnd decayWindow).length,
      decayHit (b * (1 + tolerance))
        ((rollingMedian roll ((decaySubset panel saleEnd decayWindow).map
          (fun r => r.engagement))).getD i none) = true →
      (∀ j < i, decayHit (b * (1 + tolerance))
        ((rollingMedian roll ((decaySubset panel saleEnd decayWindow).map
          (fun r => r.engagement))).getD j none) = false) →
      computeDecayDaysToBaseline saleEnd (some b) panel decayWindow roll
          tolerance =
        some (((decaySubset panel saleEnd decayWindow).getD i default).date -
          saleEnd)) ∧
    (∀ k, computeDecayDaysToBaseline saleEnd (some b) panel decayWindow roll
        tolerance = some k → 1 ≤ k ∧ k ≤ decayWindow) ∧
    computeDecayDaysToBaseline saleEnd none panel decayWindow roll
      tolerance = none := by
  refine ⟨?_, ?_, ?_, rfl⟩
  · intro hall
    have hnone : firstHitIdx (b * (1 + tolerance))
        (rollingMedian roll ((decaySubset panel saleEnd decayWindow).map
          (fun r => r.engagement))) = none := by
      rw [firstHitIdx_eq_none_iff]
      intro i hi
      rw [length_rollingMedian, List.length_map] at hi
      exact hall i hi
    simp only [computeDecayDaysToBaseline, hnone, Option.none_bind]
    split
    · rfl
    · rfl
  · intro i hi hhit hprev
    have hsome : firstHitIdx (b * (1 + tolerance))
        (rollingMedian roll ((decaySubset panel saleEnd decayWindow).map
          (fun r => r.engagement))) = some i := by
      rw [firstHitIdx_eq_some_iff]
      exact ⟨by rw [length_rollingMedian, List.length_map]; exact hi,
        hhit, hprev⟩
    have hemp : (decaySubset panel saleEnd decayWindow).isEmpty = false := by
      cases hsub : decaySubset panel saleEnd decayWindow with
      | nil => rw [hsub] at hi; simp at hi
      | cons a l => rfl
    have hq : (decaySubset panel saleEnd decayWindow).get? i =
        some ((decaySubset panel saleEnd decayWindow).getD i default) := by
      rw [List.getD_eq_getElem _ _ hi, List.get?_eq_getElem?]
      exact List.getElem?_eq_getElem hi
    simp only [computeDecayDaysToBaseline, hemp, Bool.false_eq_true,
      if_false, hsome, Option.some_bind, hq, Option.map_some']
  · intro k hk
    simp only [computeDecayDaysToBaseline] at hk
    by_cases hemp : (decaySubset panel saleEnd decayWindow).isEmpty = true
    · rw [if_pos hemp] at hk; cases hk
    · rw [if_neg hemp] at hk
      rcases Option.bind_eq_some.mp hk with ⟨i, _, hmap⟩
      rcases Option.map_eq_some'.mp hmap with ⟨r, hget, hkeq⟩
      have hr : r ∈ decaySubset panel saleEnd decayWindow :=
        List.get?_mem hget
      have hb2 := (List.mem_filter.mp hr).2
      have hbounds : saleEnd + 1 ≤ r.date ∧ r.date ≤ saleEnd + decayWindow := by
        simpa using hb2
      omega

/-- The spec's worked decay example: baseline 100 and post-end values
150, 120, 105, 100 on days +1..+4. -/
def decayExamplePanel : List PanelRow :=
  [⟨1, some 150, none⟩, ⟨2, some 120, none⟩, ⟨3, some 105, none⟩,
   ⟨4, some 100, none⟩]

/-- C1 witness: on the worked example with roll 3 and tolerance 5% the
decay day is 4, obtained from the first-qualifying-offset
characterization. -/
theorem claim_C1_witness :
    computeDecayDaysToBaseline 0 (some 100) decayExamplePanel 14 3 (5/100) =
      some 4 := by
  have h := (claim_C1_amended 0 100 decayExamplePanel 14 3 (5/100)).2.1 3
    (by decide) (by decide) (by decide)
  exact h

end RatKernelEval

/-! Claim C8: the metric refresh is idempotent and overwrites stale
metric columns. -/

theorem cleanExtras_append (l₁ l₂ : List (String × Option ℚ)) :
    cleanExtras (l₁ ++ l₂) = cleanExtras l₁ ++ cleanExtras l₂ := by
  simp [cleanExtras]

theorem cleanExtras_idem (l : List (String × Option ℚ)) :
    cleanExtras (cleanExtras l) = cleanExtras l :=
  filter_self_idem _ _

theorem cleanExtras_metricTriple (a b c : Option ℚ) :
    cleanExtras [("peak_lift_pct", a), ("AUL", b),
      ("decay_days_to_baseline", c)] = [] := rfl

theorem mem_cleanExtras_names {l : List (String × Option ℚ)}
    {kv : String × Option ℚ} (h : kv ∈ cleanExtras l) :
    kv.1 ≠ "peak_lift_pct" ∧ kv.1 ≠ "AUL" ∧
      kv.1 ≠ "decay_days_to_baseline" := by
  have h2 := (List.mem_filter.mp h).2
  simp only [keepMetricCol, isDroppedMetricCol, Bool.and_eq_true,
    Bool.not_eq_true', Bool.or_eq_false_iff, beq_eq_false_iff_ne,
    ne_eq, decide_eq_true_eq] at h2
  exact ⟨h2.1.1.1.1, h2.1.1.1.2, h2.2⟩

theorem addSaleMetricsRow_idem (ew : List EventRow) (panel : List PanelRow)
    (peakWindow decayWindow : Int) (roll : ℕ) (tolerance : ℚ)
    (s : MetricSaleRow) :
    addSaleMetricsRow ew panel peakWindow decayWindow roll tolerance
        (addSaleMetricsRow ew panel peakWindow decayWindow roll tolerance s) =
      addSaleMetricsRow ew panel peakWindow decayWindow roll tolerance s := by
  simp only [addSaleMetricsRow, cleanExtras_append, cleanExtras_idem,
    cleanExtras_metricTriple, List.append_nil]

/-- C8: recomputing peak lift, AUL and decay on the output of
add_sale_metrics with unchanged event-window and panel inputs returns
exactly the same table, and each output row carries exactly one
occurrence of each metric column (stale copies are overwritten, not
appended). -/
theorem claim_C8_metrics_idempotent (sales : List MetricSaleRow)
    (ew : List EventRow) (panel : List PanelRow)
    (peakWindow decayWindow : Int) (roll : ℕ) (tolerance : ℚ) :
    addSaleMetrics (addSaleMetrics sales ew panel peakWindow decayWindow roll
        tolerance) ew panel peakWindow decayWindow roll tolerance =
      addSaleMetrics sales ew panel peakWindow decayWindow roll tolerance ∧
    ∀ s ∈ addSaleMetrics sales ew panel peakWindow decayWindow roll tolerance,
      (s.extras.filter (fun kv => kv.1 = "peak_lift_pct")).length = 1 ∧
      (s.extras.filter (fun kv => kv.1 = "AUL")).length = 1 ∧
      (s.extras.filter (fun kv => kv.1 = "decay_days_to_baseline")).length = 1 := by
  constructor
  · simp only [addSaleMetrics, List.map_map]
    apply List.map_congr_left
    intro s _
    exact addSaleMetricsRow_idem ew panel peakWindow decayWindow roll
      tolerance s
  · intro s hs
    rcases List.mem_map.mp hs with ⟨s0, _, rfl⟩
    have hnil : ∀ (p : String × Option ℚ → Bool),
        (∀ kv ∈ cleanExtras s0.extras, p kv = false) →
        (cleanExtras s0.extras).filter p = [] := by
      intro p hp
      rw [List.filter_eq_nil_iff]
      intro kv hkv
      simp [hp kv hkv]
    refine ⟨?_, ?_, ?_⟩
    · show ((cleanExtras s0.extras ++ _).filter _).length = 1
      rw [List.filter_append, hnil _ ?_]
      · rfl
      · intro kv hkv
        simpa using (mem_cleanExtras_names hkv).1
    · show ((cleanExtras s0.extras ++ _).filter _).length = 1
      rw [List.filter_append, hnil _ ?_]
      · rfl
      · intro kv hkv
        simpa using (mem_cleanExtras_names hkv).2.1
    · show ((cleanExtras s0.extras ++ _).filter _).length = 1
      rw [List.filter_append, hnil _ ?_]
      · rfl
      · intro kv hkv
        simpa using (mem_cleanExtras_names hkv).2.2

/-! Claim C7: tier collapsing is segment-local. -/

/-- C7: when some discount tier present in the chosen segment has fewer
than MIN_TIER_N rows, collapse_tiers_for_segment rewrites the top two
tier labels to "51%+" exactly on the rows of that segment: rows of any
other segment — and the segment's rows outside the top two tiers — are
returned unchanged, position by position. -/
theorem claim_C7_segment_local (rows : List TierRow) (seg : String)
    (h : ∃ r ∈ rows, r.segment = seg ∧
      ((rows.filter (fun x => x.segment = seg)).filter
        (fun x => x.tier = r.tier)).length < MIN_TIER_N) :
    ((collapseTiersForSegment rows seg).1.length = rows.length) ∧
    ∀ i < rows.length,
      ((rows.getD i default).segment ≠ seg →
        (collapseTiersForSegment rows seg).1.getD i default =
          rows.getD i default) ∧
      ((rows.getD i default).segment = seg →
        ((rows.getD i default).tier = "51-75%" ∨
          (rows.getD i default).tier = "76-100%") →
        (collapseTiersForSegment rows seg).1.getD i default =
          { rows.getD i default with tier := "51%+" }) ∧
      ((rows.getD i default).segment = seg →
        ¬((rows.getD i default).tier = "51-75%" ∨
          (rows.getD i default).tier = "76-100%") →
        (collapseTiersForSegment rows seg).1.getD i default =
          rows.getD i default) := by
  obtain ⟨r, hr, hseg, hcount⟩ := h
  have hrsub : r ∈ rows.filter (fun x => x.segment = seg) :=
    List.mem_filter.mpr ⟨hr, by simpa using hseg⟩
  have hcnt : ((rows.filter (fun x => x.segment = seg)).filter
      (fun x => x.tier = r.tier)).length ∈
      (((rows.filter (fun x => x.segment = seg)).map
        (fun x => x.tier)).dedup).map
        (fun t => ((rows.filter (fun x => x.segment = seg)).filter
          (fun x => x.tier = t)).length) :=
    List.mem_map_of_mem _ (List.mem_dedup.mpr (List.mem_map_of_mem _ hrsub))
  obtain ⟨m, hm, hmle⟩ := minOptNat_spec hcnt
  have hm2 : minTierCount (rows.filter (fun x => x.segment = seg)) =
      some m := hm
  have hout : (collapseTiersForSegment rows seg).1 =
      rows.map (collapseRow seg) := by
    unfold collapseTiersForSegment
    dsimp only
    rw [hm2]
    have hnle : ¬ MIN_TIER_N ≤ m := by
      unfold MIN_TIER_N; unfold MIN_TIER_N at hcount; omega
    simp [hnle]
  have hget : ∀ i, i < rows.length →
      (collapseTiersForSegment rows seg).1.getD i default =
        collapseRow seg (rows.getD i default) := by
    intro i hi
    have hi2 : i < (rows.map (collapseRow seg)).length := by simpa using hi
    rw [hout, List.getD_eq_getElem _ _ hi2, List.getElem_map,
      List.getD_eq_getElem _ _ hi]
  refine ⟨by rw [hout, List.length_map], ?_⟩
  intro i hi
  refine ⟨?_, ?_, ?_⟩
  · intro hne
    rw [hget i hi]
    unfold collapseRow
    rw [if_neg]
    intro hc
    exact hne hc.1
  · intro hs ht
    rw [hget i hi]
    unfold collapseRow
    rw [if_pos ⟨hs, ht⟩]
  · intro hs ht
    rw [hget i hi]
    unfold collapseRow
    rw [if_neg]
    intro hc
    exact ht hc.2

/-- Concrete rows for the C7 witness: one tail-segment row in the top
tier (its tier count 1 is below MIN_TIER_N) and one mid-segment row in
the same tier. -/
def c7Rows : List TierRow :=
  [⟨1, "tail", "76-100%"⟩, ⟨2, "mid", "76-100%"⟩]

/-- C7 witness: collapsing for the tail segment rewrites the tail row's
tier to "51%+" and leaves the mid row untouched. -/
theorem claim_C7_witness :
    ((collapseTiersForSegment c7Rows "tail").1.getD 0 default =
      { c7Rows.getD 0 default with tier := "51%+" }) ∧
    ((collapseTiersForSegment c7Rows "tail").1.getD 1 default =
      c7Rows.getD 1 default) := by
  have h := claim_C7_segment_local c7Rows "tail" (by decide)
  exact ⟨((h.2 0 (by decide)).2.1) (by decide) (by decide),
    (h.2 1 (by decide)).1 (by decide)⟩

/-! Claim C6: segmentation never fails on degenerate distributions. -/

theorem length_qcutSegments {xs qs : List ℚ} {segs : List Seg}
    (h : qcutSegments xs qs = some segs) : segs.length = xs.length := by
  unfold qcutSegments at h
  by_cases hc : ((qs.map (quantileOfSorted (sortQ xs))).dedup).length = qs.length
  · rw [if_pos hc] at h
    injection h with h
    rw [← h, List.length_map]
  · rw [if_neg hc] at h
    cases h

theorem length_assignSegmentsOnce (xs qs : List ℚ) :
    (assignSegmentsOnce xs qs).length = xs.length := by
  unfold assignSegmentsOnce
  rcases hq : qcutSegments xs qs with _ | segs
  · simp [fallbackSegments]
  · simp [length_qcutSegments hq]

theorem length_filter_lt_add_eq_le (xs : List ℚ) (x : ℚ) :
    (xs.filter (fun y => y < x)).length +
      (xs.filter (fun y => y = x)).length ≤ xs.length := by
  induction xs with
  | nil => simp
  | cons a l ih =>
      by_cases h1 : a < x
      · have h2 : ¬ a = x := by
          intro he; subst he; exact lt_irrefl _ h1
        simp only [List.filter_cons]
        simp [h1, h2]
        omega
      · by_cases h2 : a = x
        · simp only [List.filter_cons]
          simp [h1, h2]
          omega
        · simp only [List.filter_cons]
          simp [h1, h2]
          omega

theorem pctRank_pos {xs : List ℚ} {x : ℚ} (hx : x ∈ xs) :
    0 < pctRank xs x := by
  have hn : 0 < (xs.length : ℚ) := by
    have := List.length_pos_of_mem hx
    exact_mod_cast this
  have heq : 1 ≤ ((xs.filter (fun y => y = x)).length : ℚ) := by
    have : x ∈ xs.filter (fun y => y = x) :=
      List.mem_filter.mpr ⟨hx, by simp⟩
    exact_mod_cast List.length_pos_of_mem this
  have hlt : 0 ≤ ((xs.filter (fun y => y < x)).length : ℚ) := by positivity
  unfold pctRank
  apply div_pos _ hn
  linarith

theorem pctRank_le_one {xs : List ℚ} {x : ℚ} (hx : x ∈ xs) :
    pctRank xs x ≤ 1 := by
  have hn : 0 < (xs.length : ℚ) := by
    have := List.length_pos_of_mem hx
    exact_mod_cast this
  have heq : 1 ≤ ((xs.filter (fun y => y = x)).length : ℚ) := by
    have : x ∈ xs.filter (fun y => y = x) :=
      List.mem_filter.mpr ⟨hx, by simp⟩
    exact_mod_cast List.length_pos_of_mem this
  have hsum : ((xs.filter (fun y => y < x)).length : ℚ) +
      ((xs.filter (fun y => y = x)).length : ℚ) ≤ (xs.length : ℚ) := by
    exact_mod_cast length_filter_lt_add_eq_le xs x
  unfold pctRank
  rw [div_le_one hn]
  linarith

theorem cutBin_total (b c x : ℚ) (h0 : 0 < x) (h1 : x ≤ 1) :
    ∃ s, cutBin [0, b, c, 1] x = some s := by
  unfold cutBin
  by_cases hb : x ≤ b
  · rw [if_pos]
    · exact ⟨Seg.tail, rfl⟩
    · exact ⟨by simpa using le_of_lt h0, by simpa using hb⟩
  · by_cases hc : x ≤ c
    · rw [if_neg, if_pos]
      · exact ⟨Seg.mid, rfl⟩
      · exact ⟨by simpa using lt_of_not_le hb, by simpa using hc⟩
      · intro hcon
        exact hb (by simpa using hcon.2)
    · rw [if_neg, if_neg, if_pos]
      · exact ⟨Seg.head, rfl⟩
      · exact ⟨by simpa using lt_of_not_le hc, by simpa using h1⟩
      · intro hcon
        exact hc (by simpa using hcon.2)
      · intro hcon
        exact hb (by simpa using hcon.2)

theorem assignSegmentsOnce_total (xs : List ℚ) (b c : ℚ) (o : Option Seg)
    (ho : o ∈ assignSegmentsOnce xs [0, b, c, 1]) : ∃ s, o = some s := by
  unfold assignSegmentsOnce at ho
  rcases hq : qcutSegments xs [0, b, c, 1] with _ | segs
  · rw [hq] at ho
    unfold fallbackSegments at ho
    rcases List.mem_map.mp ho with ⟨x, hx, rfl⟩
    rcases cutBin_total b c (pctRank xs x) (pctRank_pos hx)
      (pctRank_le_one hx) with ⟨s, hs⟩
    exact ⟨s, hs⟩
  · rw [hq] at ho
    rcases List.mem_map.mp ho with ⟨s, _, rfl⟩
    exact ⟨s, rfl⟩

section RatKernelEvalSeg

attribute [local semireducible] Rat.mul Rat.add Rat.sub Rat.inv

set_option maxHeartbeats 1600000 in
/-- C6 counterexample: in add_buckets the caught qcut failure does NOT
fall back to percentile-rank binning — on the degenerate all-identical
input every popularity bucket becomes NA (a rank-based fallback would
have assigned every row a real label). -/
theorem claim_C6_counterexample :
    popularityBucket [100, 100, 100, 100] 4 = [none, none, none, none] ∧
    ∀ o ∈ popularityBucket [100, 100, 100, 100] 4, o = none := by
  refine ⟨by decide, by decide⟩

end RatKernelEvalSeg

/-- C6 amended: segment/bucket assignment never fails. In assign_segments
a failed quantile cut falls back to percentile-rank binning, and every
(non-null) input receives one of the labels tail/mid/head — never the
"nan" of a failed assignment. In add_buckets the failed quantile cut is
caught and the popularity buckets are set to NA instead (no rank-based
fallback), so the error still never propagates and the result keeps its
shape. -/
theorem claim_C6_amended (xs : List ℚ) :
    (∀ qs, qcutSegments xs qs = none →
      assignSegmentsOnce xs qs = fallbackSegments xs qs) ∧
    (assignSegments xs).length = xs.length ∧
    (∀ s ∈ assignSegments xs, s = "tail" ∨ s = "mid" ∨ s = "head") ∧
    (∀ q : ℕ, (popularityBucket xs q).length = xs.length) := by
  refine ⟨?_, ?_, ?_, ?_⟩
  · intro qs h
    unfold assignSegmentsOnce
    rw [h]
  · unfold assignSegments
    dsimp only
    rw [List.length_map]
    split <;> split <;> exact length_assignSegmentsOnce _ _
  · intro s hs
    unfold assignSegments at hs
    dsimp only at hs
    rcases List.mem_map.mp hs with ⟨o, ho, rfl⟩
    have hsome : ∃ sg, o = some sg := by
      split at ho <;> split at ho <;>
        exact assignSegmentsOnce_total xs _ _ o ho
    rcases hsome with ⟨sg, rfl⟩
    cases sg
    · exact Or.inl rfl
    · exact Or.inr (Or.inl rfl)
    · exact Or.inr (Or.inr rfl)
  · intro q
    unfold popularityBucket
    split
    · rw [List.length_map]
    · dsimp only
      split
      · rw [List.length_map]
      · rw [List.length_map]

section RatKernelEvalSegW

attribute [local semireducible] Rat.mul Rat.add Rat.sub Rat.inv

set_option maxHeartbeats 1600000 in
/-- C6 witness: on the degenerate all-identical input [5, 5, 5] the
primary cut fails, the rank fallback is used, and all three labels are
real segment names. -/
theorem claim_C6_witness :
    (assignSegmentsOnce [5, 5, 5] [0, 1/3, 2/3, 1] =
      fallbackSegments [5, 5, 5] [0, 1/3, 2/3, 1]) ∧
    (assignSegments [5, 5, 5]).length = 3 ∧
    (∀ s ∈ assignSegments [5, 5, 5],
      s = "tail" ∨ s = "mid" ∨ s = "head") :=
  ⟨(claim_C6_amended [5, 5, 5]).1 [0, 1/3, 2/3, 1] (by decide),
   (claim_C6_amended [5, 5, 5]).2.1,
   (claim_C6_amended [5, 5, 5]).2.2.1⟩

end RatKernelEvalSegW

end SteamGrowth
